import Mathlib

/-!
Verification development for the layered graph-layout and rendering engine of
the WikigameSolverWeb repository (file
src/components/path-visualization-modes/force-graph.tsx).

The TypeScript code is shallowly embedded: JavaScript numbers appearing in
geometric computations become rationals, the page-metadata object becomes a
partial function `Nat → Option String` (a JavaScript property access on a
missing key yields `undefined`, and a subsequent `.title` access throws: we
model a computation that can throw as an `Option`-valued function whose result
is `none` exactly when the original code would throw), the insertion-ordered
JavaScript `Map`/`Set` collections become ordered lists without duplicates,
and `Array.prototype.sort` (stable, with a consistent user comparator)
becomes the stable insertion sort `sortBy` with the boolean relation derived
from the comparator — any two stable sorts for the same total preorder agree,
and insertion sort keeps every result computable by kernel reduction.
-/

namespace ForceGraph

/-- Embedding of the `Node` record built by the `ForceGraph` component
(force-graph.tsx lines 11-20 and 220-227).  Optional boolean fields of the
TypeScript interface (`isStart`, `isEnd`, `isSearchMatch`,
`isSearchConnected`) are embedded as `Bool` with `false` standing for the
JavaScript `undefined`, which is observationally equivalent under the
truthiness tests the component performs on them. -/
structure Node where
  id : String
  name : String
  isStart : Bool
  isEnd : Bool
  group : Nat
  depth : Nat
  isSearchMatch : Bool
  isSearchConnected : Bool
deriving Repr, DecidableEq

/-- Embedding of the `Link` record (force-graph.tsx lines 22-28 and 239-244).
At build time `source` and `target` are title strings; they are only replaced
by object references later, when d3 mutates the records, which is outside the
build stage modelled here. -/
structure Link where
  source : String
  target : String
  fromPage : String
  toPage : String
  isSearchHighlighted : Bool
deriving Repr, DecidableEq

/-- Embedding of the `graphData` state: the node and link arrays produced by
the build effect (force-graph.tsx line 296). -/
structure GraphData where
  nodes : List Node
  links : List Link
deriving Repr, DecidableEq

/-- Embedding of the `pageInfo : PageInfoMap` prop: a JavaScript object
mapping numeric page ids to metadata records; only the `title` field is read
by the graph build.  `none` models a missing entry (`pageInfo[id]` being
`undefined`). -/
def PageInfo := Nat → Option String

/-- Embedding of `page.replace(/_/g, " ")` (force-graph.tsx lines 222, 242,
243): every underscore is replaced by a space.  Implemented on the
character list so the kernel can evaluate it. -/
def replaceUnderscores (s : String) : String :=
  String.mk (s.data.map (fun c => if c = '_' then ' ' else c))

/-- Embedding of `String.prototype.toLowerCase`, implemented on the
character list so the kernel can evaluate it. -/
def lowerString (s : String) : String :=
  String.mk (s.data.map Char.toLower)

/-- Embedding of `String.prototype.trim`: leading and trailing whitespace
removed, implemented on the character list so the kernel can evaluate it. -/
def trimString (s : String) : String :=
  String.mk (((s.data.dropWhile Char.isWhitespace).reverse.dropWhile
    Char.isWhitespace).reverse)

/-- Embedding of `startPage` (force-graph.tsx lines 203-205):
`paths[0][0]` looked up in `pageInfo`, with JavaScript truthiness on the
numeric id (`startPageId ? … : null`), so the id `0` — being falsy — also
yields `null`. -/
def startPageOf (paths : List (List Nat)) (info : PageInfo) : Option String :=
  match paths with
  | (pid :: _) :: _ => if pid = 0 then none else info pid
  | _ => none

/-- Embedding of `endPage` (force-graph.tsx lines 204-206): the last element
of the first path looked up in `pageInfo`, with the same truthiness guard on
the id. -/
def endPageOf (paths : List (List Nat)) (info : PageInfo) : Option String :=
  match paths with
  | p :: _ =>
    match p.getLast? with
    | some pid => if pid = 0 then none else info pid
    | none => none
  | _ => none

/-- Test used by `nodesMap.has(page)` (force-graph.tsx line 219): the
insertion-ordered map keyed by title is embedded as the list of its values,
so key membership is membership of the `id` field. -/
def hasNode (acc : List Node) (t : String) : Bool :=
  acc.any (fun n => n.id == t)

/-- Embedding of the `nodesMap.set` call (force-graph.tsx lines 220-227):
the node created on first sight of a title. -/
def mkNode (sp ep : Option String) (pathIndex index : Nat) (title : String) : Node :=
  { id := title
    name := replaceUnderscores title
    isStart := some title == sp
    isEnd := some title == ep
    group := pathIndex
    depth := index
    isSearchMatch := false
    isSearchConnected := false }

/-- Embedding of one iteration of the node loop body (force-graph.tsx lines
217-229): insert the node only if its title is not yet a key of the map;
`Map.set` on a fresh key appends in insertion order. -/
def insertNode (sp ep : Option String) (pathIndex index : Nat) (title : String)
    (acc : List Node) : List Node :=
  if hasNode acc title then acc else acc ++ [mkNode sp ep pathIndex index title]

/-- Embedding of `path.forEach((pageId, index) => …)` (force-graph.tsx lines
217-229).  The lookup `pageInfo[pageId].title` throws when the entry is
missing, modelled by propagating `none`. -/
def insertPathNodes (info : PageInfo) (sp ep : Option String) (pathIndex : Nat) :
    List Nat → Nat → List Node → Option (List Node)
  | [], _, acc => some acc
  | pid :: rest, index, acc =>
    match info pid with
    | none => none
    | some t =>
      insertPathNodes info sp ep pathIndex rest (index + 1)
        (insertNode sp ep pathIndex index t acc)

/-- Embedding of the node half of `paths.forEach((path, pathIndex) => …)`
(force-graph.tsx lines 216-229).  The node pass and the link pass of the
source interleave per path but touch disjoint state (`nodesMap` versus
`linksSet`/`links`), and both throw exactly when some id of some path has no
metadata entry, so building all nodes first is observationally equivalent. -/
def buildNodes (info : PageInfo) (sp ep : Option String) :
    List (List Nat) → Nat → List Node → Option (List Node)
  | [], _, acc => some acc
  | p :: ps, pathIndex, acc =>
    match insertPathNodes info sp ep pathIndex p 0 acc with
    | none => none
    | some acc' => buildNodes info sp ep ps (pathIndex + 1) acc'

/-- Consecutive pairs of a path, as enumerated by the link loop
`for (let i = 0; i < path.length - 1; i++)` (force-graph.tsx line 230). -/
def pathPairs : List α → List (α × α)
  | [] => []
  | [_] => []
  | a :: b :: rest => (a, b) :: pathPairs (b :: rest)

/-- Embedding of the deduplication key `` `${source}|${target}` ``
(force-graph.tsx line 236). -/
def linkKey (s t : String) : String :=
  s ++ "|" ++ t

/-- Embedding of the link loop body for the consecutive pairs of one path
(force-graph.tsx lines 230-246): look up both titles, skip the pair when its
key is already in `linksSet`, otherwise record the key and push the link. -/
def addPairLinks (info : PageInfo) :
    List (Nat × Nat) → List String → List Link → Option (List String × List Link)
  | [], seen, ls => some (seen, ls)
  | (sId, tId) :: rest, seen, ls =>
    match info sId, info tId with
    | some s, some t =>
      if seen.contains (linkKey s t) then
        addPairLinks info rest seen ls
      else
        addPairLinks info rest (seen ++ [linkKey s t])
          (ls ++ [{ source := s, target := t, fromPage := replaceUnderscores s,
                    toPage := replaceUnderscores t, isSearchHighlighted := false }])
    | _, _ => none

/-- Embedding of the link half of `paths.forEach` (force-graph.tsx lines
230-246), iterating the per-path link loop over all paths with the shared
`linksSet` and `links` accumulators. -/
def buildLinks (info : PageInfo) :
    List (List Nat) → List String → List Link → Option (List String × List Link)
  | [], seen, ls => some (seen, ls)
  | p :: ps, seen, ls =>
    match addPairLinks info (pathPairs p) seen ls with
    | none => none
    | some (seen', ls') => buildLinks info ps seen' ls'

/-- Embedding of the structural part of the graph build effect (force-graph.tsx
lines 213-247): the node and link arrays before the search-flag pass, with
`none` modelling the `TypeError` thrown by `pageInfo[pageId].title` on a
missing metadata entry. -/
def buildGraphData (paths : List (List Nat)) (info : PageInfo) : Option GraphData :=
  let sp := startPageOf paths info
  let ep := endPageOf paths info
  match buildNodes info sp ep paths 0 [] with
  | none => none
  | some nodes =>
    match buildLinks info paths [] [] with
    | none => none
    | some (_, links) => some { nodes := nodes, links := links }

/-- Boolean test that `pat` occurs as a contiguous run at the front of
`hay`, on character lists. -/
def startsWithChars : List Char → List Char → Bool
  | [], _ => true
  | _ :: _, [] => false
  | a :: as, b :: bs => a == b && startsWithChars as bs

/-- Boolean substring test on character lists, used to embed
`String.prototype.includes`. -/
def containsChars (pat : List Char) : List Char → Bool
  | [] => pat.isEmpty
  | b :: bs => startsWithChars pat (b :: bs) || containsChars pat bs

/-- Embedding of `node.name.toLowerCase().includes(searchLower)`
(force-graph.tsx line 254), where `q` is the already lowercased and trimmed
search term. -/
def nodeMatches (q : String) (n : Node) : Bool :=
  containsChars q.data (lowerString n.name).data

/-- Embedding of the search-flag pass of the build effect (force-graph.tsx
lines 249-294).  When the lowercased, trimmed term is empty (falsy in the
source) all flags are cleared; otherwise matching nodes are flagged,
non-matching nodes get `isSearchConnected` when one hop from a match, and a
link is highlighted when either endpoint matches.  At this stage the node
records are freshly built, so the `isSearchConnected` field a matching node
keeps is `false`, matching the `undefined` the source leaves on it. -/
def decorateSearch (searchTerm : String) (g : GraphData) : GraphData :=
  let q := trimString (lowerString searchTerm)
  if q = "" then
    { nodes := g.nodes.map (fun n =>
        { n with isSearchMatch := false, isSearchConnected := false })
      links := g.links.map (fun l => { l with isSearchHighlighted := false }) }
  else
    let matched := (g.nodes.filter (fun n => nodeMatches q n)).map (fun n => n.id)
    let connected := fun (id : String) =>
      g.links.any (fun l =>
        (matched.contains l.source && l.target == id) ||
        (matched.contains l.target && l.source == id))
    { nodes := g.nodes.map (fun n =>
        if nodeMatches q n then { n with isSearchMatch := true }
        else { n with isSearchMatch := false, isSearchConnected := connected n.id })
      links := g.links.map (fun l =>
        { l with isSearchHighlighted :=
            matched.contains l.source || matched.contains l.target }) }

/-- Embedding of one run of the whole build effect (force-graph.tsx lines
211-297) as a state transformer on `graphData`: when `paths` is empty the
effect returns before calling `setGraphData`, leaving the previous state in
place; otherwise the structural build runs followed by the search-flag pass,
with `none` modelling the throw on missing metadata. -/
def updateGraphData (prev : GraphData) (paths : List (List Nat)) (info : PageInfo)
    (searchTerm : String) : Option GraphData :=
  if paths.isEmpty then some prev
  else
    match buildGraphData paths info with
    | none => none
    | some g => some (decorateSearch searchTerm g)

/-- Embedding of the data compared by the structural-change check
(force-graph.tsx lines 636-640). -/
structure StructuralData where
  nodeCount : Nat
  linkCount : Nat
  pathsLength : Nat
deriving Repr, DecidableEq

/-- Structural data captured for the current render (force-graph.tsx lines
636-640). -/
def structuralDataOf (g : GraphData) (paths : List (List Nat)) : StructuralData :=
  { nodeCount := g.nodes.length, linkCount := g.links.length,
    pathsLength := paths.length }

/-- Embedding of `hasStructuralChanges` (force-graph.tsx lines 642-648). -/
def hasStructuralChanges (prev cur : StructuralData) : Bool :=
  prev.nodeCount != cur.nodeCount ||
  prev.linkCount != cur.linkCount ||
  prev.pathsLength != cur.pathsLength

/-- Viewport dimensions, embedded as rationals (the `dimensions` state,
force-graph.tsx line 175). -/
structure Dimensions where
  width : ℚ
  height : ℚ
deriving Repr, DecidableEq

/-- Embedding of `dimensionsChanged` (force-graph.tsx lines 650-652). -/
def dimensionsChanged (prev cur : Dimensions) : Bool :=
  decide (prev.width ≠ cur.width) || decide (prev.height ≠ cur.height)

/-- Embedding of the guard deciding whether `zoomToFit` runs after a render
(force-graph.tsx line 654). -/
def shouldZoomToFit (prevS curS : StructuralData) (prevD curD : Dimensions) : Bool :=
  hasStructuralChanges prevS curS || dimensionsChanged prevD curD

/-- Embedding of the early-exit guard of the render effect (force-graph.tsx
lines 341-347): with no nodes the effect returns before any of the ordering,
layout, simulation or drawing work.  The additional guards on the canvas and
container refs concern DOM availability and are outside this model. -/
def rendersGraph (g : GraphData) : Bool :=
  !(g.nodes.length == 0)

/-- Structural content of a node: every field except the two derived search
flags. -/
def stripNode (n : Node) : String × String × Bool × Bool × Nat × Nat :=
  (n.id, n.name, n.isStart, n.isEnd, n.group, n.depth)

/-- Structural content of a link: every field except the derived search
highlight flag. -/
def stripLink (l : Link) : String × String × String × String :=
  (l.source, l.target, l.fromPage, l.toPage)

/-- Structural content of the graph state: node and link lists with the
search-derived flags erased. -/
def stripGraph (g : GraphData) :
    List (String × String × Bool × Bool × Nat × Nat) × List (String × String × String × String) :=
  (g.nodes.map stripNode, g.links.map stripLink)

/-- Index of the first occurrence of `p` in a column order, if any; embeds
`indexPrev.get(p)` / `indexNext.get(p)` (force-graph.tsx lines 86, 104),
assuming the column ids are pairwise distinct — true for the columns the
component builds, whose ids are keys of `nodesMap`. -/
def indexIn (p : Nat) : List Nat → Option Nat
  | [] => none
  | a :: rest => if a == p then some 0 else (indexIn p rest).map (· + 1)

/-- Stable insertion of an element into a list sorted by the boolean
relation `le`: the element is placed before the first strictly later
element, after any equal ones. -/
def insertBy (le : α → α → Bool) (a : α) : List α → List α
  | [] => [a]
  | b :: bs => if le a b then a :: b :: bs else b :: insertBy le a bs

/-- Stable sort by a boolean total preorder.  JavaScript's
`Array.prototype.sort` with a consistent comparator is a stable sort, and
any two stable sorts for the same total preorder produce the same list;
it is embedded here as stable insertion sort so that results are
computable by kernel reduction. -/
def sortBy (le : α → α → Bool) : List α → List α
  | [] => []
  | a :: rest => insertBy le a (sortBy le rest)

/-- Embedding of `median` (force-graph.tsx lines 63-68): `none` models the
`NaN` returned for an empty array; otherwise the sorted middle element, or
the mean of the two middle elements for even length. -/
def median (arr : List ℚ) : Option ℚ :=
  if arr.isEmpty then none
  else
    let a := sortBy (fun x y => decide (x ≤ y)) arr
    let m := a.length / 2
    if a.length % 2 = 1 then some (a.getD m 0)
    else some ((a.getD (m - 1) 0 + a.getD m 0) / 2)

/-- Median key of a node for one sweep direction: the median of its
neighbours' indices in the reference column, each missing neighbour
contributing index `0` via the `?? 0` fallback (force-graph.tsx lines
89-94 and 107-112). -/
def medianKey (refOrder : List Nat) (neighbors : List Nat) : Option ℚ :=
  median (neighbors.map (fun p => (((indexIn p refOrder).getD 0 : Nat) : ℚ)))

/-- Embedding of the three-way comparator passed to `sort` (force-graph.tsx
lines 88-99) as the boolean relation of a stable sort: `NaN` keys (here
`none`) compare equal to each other and greater than every real key, so
nodes without neighbours are pushed to the back. -/
def keyLE : Option ℚ → Option ℚ → Bool
  | none, none => true
  | none, some _ => false
  | some _, none => true
  | some a, some b => decide (a ≤ b)

/-- Stable sort of one depth column by median key against a reference column
(one `cur.sort(…)` call of force-graph.tsx lines 88-99 or 106-117). -/
def sortColumn (refOrder : List Nat) (adj : Nat → List Nat) (cur : List Nat) : List Nat :=
  sortBy (fun a b => keyLE (medianKey refOrder (adj a)) (medianKey refOrder (adj b))) cur

/-- Top-down half of one sweep (force-graph.tsx lines 84-101): columns of
depth `1..maxDepth` are sorted in increasing depth order, each against the
already re-sorted previous column.  Columns are represented as a list
indexed by depth, which matches the source's `Map` exactly when the depth
keys are contiguous from `0` — as they are for any grouping the solver can
run on without a runtime error. -/
def downSweep (inc : Nat → List Nat) : List Nat → List (List Nat) → List (List Nat)
  | _, [] => []
  | prev, c :: rest =>
    let c' := sortColumn prev inc c
    c' :: downSweep inc c' rest

/-- Bottom-up half of one sweep (force-graph.tsx lines 102-119): columns of
depth `maxDepth-1` down to `0` are sorted in decreasing depth order, each
against the already re-sorted next column; the deepest column is left
unchanged. -/
def upSweep (out : Nat → List Nat) : List (List Nat) → List (List Nat)
  | [] => []
  | [c] => [c]
  | c :: next :: rest =>
    match upSweep out (next :: rest) with
    | [] => [sortColumn [] out c]
    | next' :: rest' => sortColumn next' out c :: next' :: rest'

/-- One full sweep: top-down pass followed by bottom-up pass (one iteration
of the `for (let s = 0; s < sweeps; s++)` loop, force-graph.tsx lines
83-120). -/
def sweepOnce (out inc : Nat → List Nat) (cols : List (List Nat)) : List (List Nat) :=
  upSweep out
    (match cols with
     | [] => []
     | c0 :: rest => c0 :: downSweep inc c0 rest)

/-- Embedding of `orderColumnsByMedian` with its default of exactly two
sweeps (force-graph.tsx lines 70-122): node ids are abstracted as naturals,
`out`/`inc` are the forward and backward adjacency maps, and `cols` lists
the depth columns in depth order starting at depth `0`. -/
def orderColumnsByMedian (out inc : Nat → List Nat) (cols : List (List Nat)) : List (List Nat) :=
  sweepOnce out inc (sweepOnce out inc cols)

/-- Fixed row spacing of the lane layout (`ROW_SPACING`, force-graph.tsx
line 368). -/
def ROW_SPACING : ℚ := 150

/-- Horizontal layout margin (`marginX`, force-graph.tsx line 366). -/
def LAYOUT_MARGIN_X : ℚ := 80

/-- Embedding of the column-height computation (force-graph.tsx lines
380-382): `(count − 1) × ROW_SPACING` for a column of more than one node,
`0` otherwise. -/
def colHeight (len : Nat) : ℚ :=
  if 1 < len then ((len : ℚ) - 1) * ROW_SPACING else 0

/-- Embedding of `maxColH` (force-graph.tsx line 383): the maximum of `0`
and all column heights. -/
def maxColHeight (cols : List (List Nat)) : ℚ :=
  cols.foldl (fun m c => max m (colHeight c.length)) 0

/-- Width-weight of one column (force-graph.tsx line 386): `1 +
columnHeight / maxColumnHeight`, with the division explicitly guarded by
`maxColH > 0`. -/
def laneWeight (maxColH colH : ℚ) : ℚ :=
  1 + (if 0 < maxColH then colH / maxColH else 0)

/-- The list of width-weights of all depth columns (force-graph.tsx lines
384-386). -/
def laneWeights (cols : List (List Nat)) : List ℚ :=
  cols.map (fun c => laneWeight (maxColHeight cols) (colHeight c.length))

/-- Embedding of `usableW` (force-graph.tsx lines 388-389), again with the
`maxColH > 0` guard of the source. -/
def usableWidth (cols : List (List Nat)) (width height : ℚ) : ℚ :=
  if 0 < maxColHeight cols then maxColHeight cols * (width / height)
  else width - 2 * LAYOUT_MARGIN_X

/-- Embedding of the lane x-coordinate of depth `d` (force-graph.tsx lines
390-396): the cumulative-weight centre fraction of the usable width, offset
by the margin. -/
def xAtDepth (cols : List (List Nat)) (width height : ℚ) (d : Nat) : ℚ :=
  let ws := laneWeights cols
  LAYOUT_MARGIN_X +
    (((ws.take d).sum + ws.getD d 0 / 2) / ws.sum) * usableWidth cols width height

/-- Embedding of the lane y-coordinate (force-graph.tsx lines 398-404): the
`i`-th node of a column of `len` nodes is placed at `startY + i ×
ROW_SPACING` with the column centred in the viewport, and a single-node
column is centred at `height / 2`. -/
def laneY (len i : Nat) (height : ℚ) : ℚ :=
  if 1 < len then (height - colHeight len) / 2 + (i : ℚ) * ROW_SPACING
  else height / 2

/-- Embedding of the d3 zoom transform: scale `k` and translation
`(tx, ty)`, as produced by `d3.zoomIdentity.translate(tx, ty).scale(k)`
(force-graph.tsx line 158). -/
structure Transform where
  k : ℚ
  tx : ℚ
  ty : ℚ
deriving Repr, DecidableEq

/-- Screen x-coordinate of a world x-coordinate under a transform
(d3 `transform.apply`). -/
def applyX (t : Transform) (x : ℚ) : ℚ := t.tx + t.k * x

/-- Screen y-coordinate of a world y-coordinate under a transform. -/
def applyY (t : Transform) (y : ℚ) : ℚ := t.ty + t.k * y

/-- World x-coordinate of a screen x-coordinate (d3 `transform.invert`,
used at force-graph.tsx line 594). -/
def invertX (t : Transform) (sx : ℚ) : ℚ := (sx - t.tx) / t.k

/-- World y-coordinate of a screen y-coordinate. -/
def invertY (t : Transform) (sy : ℚ) : ℚ := (sy - t.ty) / t.k

/-- Node as seen by `zoomToFit`: the d3 simulation-position fields `x`, `y`
are optional and read through `n.x ?? 0` (force-graph.tsx lines 140-142). -/
structure VNode where
  posX? : Option ℚ
  posY? : Option ℚ
deriving Repr, DecidableEq

/-- The `n.x ?? 0` read (force-graph.tsx line 141). -/
def posX (n : VNode) : ℚ := n.posX?.getD 0

/-- The `n.y ?? 0` read (force-graph.tsx line 142). -/
def posY (n : VNode) : ℚ := n.posY?.getD 0

/-- Minimum of the radius-padded x-extents (force-graph.tsx lines 136-147).
The source folds `Math.min` from `Infinity`; over a non-empty list this
equals folding from the first padded value, which is how it is embedded
(`zoomToFit` only reaches the fold with a non-empty list). -/
def bbMinX (r : ℚ) : List VNode → ℚ
  | [] => 0
  | n :: ns => ns.foldl (fun m v => min m (posX v - r)) (posX n - r)

/-- Maximum of the radius-padded x-extents (force-graph.tsx lines 136-147). -/
def bbMaxX (r : ℚ) : List VNode → ℚ
  | [] => 0
  | n :: ns => ns.foldl (fun m v => max m (posX v + r)) (posX n + r)

/-- Minimum of the radius-padded y-extents. -/
def bbMinY (r : ℚ) : List VNode → ℚ
  | [] => 0
  | n :: ns => ns.foldl (fun m v => min m (posY v - r)) (posY n - r)

/-- Maximum of the radius-padded y-extents. -/
def bbMaxY (r : ℚ) : List VNode → ℚ
  | [] => 0
  | n :: ns => ns.foldl (fun m v => max m (posY v + r)) (posY n + r)

/-- Embedding of `zoomToFit` (force-graph.tsx lines 124-164): `none` models
the early return on an empty node list, leaving the camera transform
untouched; otherwise the returned transform is the animation target the
camera is driven to.  The call sites pass no overrides, so `nodeRadius`,
`marginX` and `marginY` take the source defaults `14`, `10`, `10`. -/
def zoomToFit (nodes : List VNode) (width height nodeRadius marginX marginY : ℚ) :
    Option Transform :=
  if nodes.isEmpty then none
  else
    let minX := bbMinX nodeRadius nodes
    let maxX := bbMaxX nodeRadius nodes
    let minY := bbMinY nodeRadius nodes
    let maxY := bbMaxY nodeRadius nodes
    let graphWidth := max 1 (maxX - minX)
    let graphHeight := max 1 (maxY - minY)
    let scaleFitWidth := (width - 2 * marginX) / graphWidth
    let scaleFitHeight := (height - 2 * marginY) / graphHeight
    let scale := min 1.2 (min scaleFitWidth scaleFitHeight)
    let cx := (minX + maxX) / 2
    let cy := (minY + maxY) / 2
    some { k := scale, tx := width / 2 - scale * cx, ty := height / 2 - scale * cy }

/-- Simulation node as consumed by the hit-test: after layout
initialisation every node has definite coordinates. -/
structure SimNode where
  nid : Nat
  x : ℚ
  y : ℚ
deriving Repr, DecidableEq

/-- One step of the linear scan inside d3-force's `simulation.find`: a node
strictly closer than the current best squared radius replaces the best. -/
def findStep (px py : ℚ) (st : Option SimNode × ℚ) (node : SimNode) :
    Option SimNode × ℚ :=
  let dx := px - node.x
  let dy := py - node.y
  let d2 := dx * dx + dy * dy
  if d2 < st.2 then (some node, d2) else st

/-- Embedding of `simulation.find(x, y, radius)` (d3-force): linear scan over
the node array keeping the first node of minimal distance, after squaring the
radius. -/
def simulationFind (nodes : List SimNode) (px py radius : ℚ) : Option SimNode :=
  (nodes.foldl (findStep px py) (none, radius * radius)).1

/-- Embedding of the node phase of `findSubjectNode` (force-graph.tsx lines
586-597): the pointer position is inverse-transformed to world space and the
radius-based nearest-neighbour query `simulation.find(wx, wy, 30 / k)` is
run.  The label bounding-box fallback (lines 599-615) is only consulted when
this phase returns `none`, so it cannot affect a pointer placed on a node. -/
def findSubjectPoint (t : Transform) (nodes : List SimNode) (mx my : ℚ) :
    Option SimNode :=
  simulationFind nodes (invertX t mx) (invertY t my) (30 / t.k)

/-- Computation companion to `median`: twice the median of a list of
naturals, staying inside `ℕ` so that kernel reduction (`decide`) can
evaluate it.  `medianKey_eq_half_doubled` below proves it equal to the
rational `median` of the cast list, up to halving. -/
def medianDoubled (arr : List Nat) : Option Nat :=
  if arr.isEmpty then none
  else
    let a := sortBy (fun x y => decide (x ≤ y)) arr
    let m := a.length / 2
    if a.length % 2 = 1 then some (2 * a.getD m 0)
    else some (a.getD (m - 1) 0 + a.getD m 0)

/-- Computation companion to `keyLE` on doubled-median keys; comparing the
doubled values is equivalent to comparing the medians. -/
def keyLEN : Option Nat → Option Nat → Bool
  | none, none => true
  | none, some _ => false
  | some _, none => true
  | some a, some b => decide (a ≤ b)

/-- Computation companion to `medianKey`. -/
def medianKeyN (refOrder : List Nat) (neighbors : List Nat) : Option Nat :=
  medianDoubled (neighbors.map (fun p => (indexIn p refOrder).getD 0))

/-- Computation companion to `sortColumn`. -/
def sortColumnN (refOrder : List Nat) (adj : Nat → List Nat) (cur : List Nat) : List Nat :=
  sortBy (fun a b => keyLEN (medianKeyN refOrder (adj a)) (medianKeyN refOrder (adj b))) cur

/-- Computation companion to `downSweep`. -/
def downSweepN (inc : Nat → List Nat) : List Nat → List (List Nat) → List (List Nat)
  | _, [] => []
  | prev, c :: rest =>
    let c' := sortColumnN prev inc c
    c' :: downSweepN inc c' rest

/-- Computation companion to `upSweep`. -/
def upSweepN (out : Nat → List Nat) : List (List Nat) → List (List Nat)
  | [] => []
  | [c] => [c]
  | c :: next :: rest =>
    match upSweepN out (next :: rest) with
    | [] => [sortColumnN [] out c]
    | next' :: rest' => sortColumnN next' out c :: next' :: rest'

/-- Computation companion to `sweepOnce`. -/
def sweepOnceN (out inc : Nat → List Nat) (cols : List (List Nat)) : List (List Nat) :=
  upSweepN out
    (match cols with
     | [] => []
     | c0 :: rest => c0 :: downSweepN inc c0 rest)

/-- Computation companion to `orderColumnsByMedian`, proved equal to it by
`orderColumnsByMedian_eq_nat` below. -/
def orderColumnsByMedianN (out inc : Nat → List Nat) (cols : List (List Nat)) : List (List Nat) :=
  sweepOnceN out inc (sweepOnceN out inc cols)

/-- Lower bound of the zoom scale extent (force-graph.tsx line 621). -/
def ZOOM_MIN : ℚ := 0.005

/-- Upper bound of the zoom scale extent (force-graph.tsx line 621). -/
def ZOOM_MAX : ℚ := 4

/-- Index of the first position of `path` whose metadata title is `t`,
if any. -/
def titleIdx (info : PageInfo) (t : String) : List Nat → Option Nat
  | [] => none
  | pid :: rest =>
    if info pid == some t then some 0 else (titleIdx info t rest).map (· + 1)

/-- Position index of the first occurrence of the title `t`, scanning the
paths in order and each path's positions left to right: the depth the build
loop actually assigns. -/
def firstOccurrenceDepth (info : PageInfo) (paths : List (List Nat)) (t : String) :
    Option Nat :=
  match paths with
  | [] => none
  | p :: ps =>
    match titleIdx info t p with
    | some i => some i
    | none => firstOccurrenceDepth info ps t

/-- Modelled from the claim's words, for comparison with the code: the
minimum zero-based position index at which the title `t` occurs across all
paths of the set. -/
def specMinDepth (info : PageInfo) (paths : List (List Nat)) (t : String) : Option Nat :=
  (paths.flatMap (fun p =>
    (p.enum.filter (fun q => info q.2 == some t)).map (fun q => q.1))).min?

/-- Ordered (source, target) pairs of the link list. -/
def linkPairs (ls : List Link) : List (String × String) :=
  ls.map (fun l => (l.source, l.target))

/-- Deduplication keys of the link list, in order. -/
def linkKeys (ls : List Link) : List String :=
  ls.map (fun l => linkKey l.source l.target)

/-- A title is pipe-free when it does not contain the `|` character used as
the separator of the deduplication key. -/
def PipeFreeTitle (s : String) : Prop :=
  '|' ∉ s.data

/-- The ordered pair `(s, t)` is a consecutive pair of some path of the set,
after resolving ids to titles. -/
def IsConsecutivePair (info : PageInfo) (paths : List (List Nat)) (s t : String) : Prop :=
  ∃ p ∈ paths, ∃ q ∈ pathPairs p, info q.1 = some s ∧ info q.2 = some t

/-- Metadata table used by the concrete examples: ids 1-4 carry the titles
A, B, C, D. -/
def infoABCD : PageInfo := fun pid =>
  if pid = 1 then some "A" else if pid = 2 then some "B" else
  if pid = 3 then some "C" else if pid = 4 then some "D" else none

/-- Metadata table of the pipe-collision example: the titles of ids 2 and 3
contain the separator character. -/
def infoPipe : PageInfo := fun pid =>
  if pid = 1 then some "a" else if pid = 2 then some "b|c" else
  if pid = 3 then some "a|b" else if pid = 4 then some "c" else none

/-- Structural build of the worked example paths `[[A,B,C],[A,D,C]]`, used
by concrete witnesses. -/
def exStructural : GraphData :=
  (buildGraphData [[1, 2, 3], [1, 4, 3]] infoABCD).getD { nodes := [], links := [] }

/-- Structural build of the deduplication example paths
`[[A,B],[A,B],[A,B,C]]`, used by concrete witnesses. -/
def exDedup : GraphData :=
  (buildGraphData [[1, 2], [1, 2], [1, 2, 3]] infoABCD).getD { nodes := [], links := [] }

/-- A non-empty previous graph state, used to exercise the empty-path-list
update. -/
def prevNonEmpty : GraphData :=
  { nodes := [mkNode (some "A") (some "A") 0 0 "A"], links := [] }

/-- Forward adjacency of the concrete two-column graph on which the solver
is not idempotent: column 0 is `[0, 1, 2, 3]`, column 1 is `[4, 5, 6, 7]`,
and the edge set is 0→4, 0→7, 1→5, 1→6, 1→7, 2→5, 2→7, 3→4. -/
def cexOut : Nat → List Nat := fun n =>
  if n = 0 then [4, 7] else if n = 1 then [5, 6, 7] else
  if n = 2 then [5, 7] else if n = 3 then [4] else []

/-- Backward adjacency of the same two-column graph. -/
def cexInc : Nat → List Nat := fun n =>
  if n = 4 then [0, 3] else if n = 5 then [1, 2] else
  if n = 6 then [1] else if n = 7 then [0, 1, 2] else []

/-- C10: invoked with an empty node list, `zoomToFit` returns immediately
(`none`) without computing a bounding box, so the camera transform is left
unchanged. -/
theorem zoomToFit_empty_returns_none (width height nodeRadius marginX marginY : ℚ) :
    zoomToFit [] width height nodeRadius marginX marginY = none := by
  simp [zoomToFit]

/-- C9: in the lane layout, a column of `n > 1` nodes has height
`(n − 1) × ROW_SPACING` and its `i`-th node sits at
`(height − columnHeight) / 2 + i × ROW_SPACING`; a single-node column has
height `0` and is centred at `height / 2`; and when the maximum column
height is `0` the guarded weight computation yields weight `1` for every
column and the margin-based usable width, never evaluating the division. -/
theorem laneLayout_column_formulas (cols : List (List Nat)) (n i : Nat)
    (width height : ℚ) (hn : 1 < n) :
    colHeight n = ((n : ℚ) - 1) * ROW_SPACING ∧
    laneY n i height = (height - colHeight n) / 2 + (i : ℚ) * ROW_SPACING ∧
    colHeight 1 = 0 ∧
    laneY 1 i height = height / 2 ∧
    (maxColHeight cols = 0 →
      laneWeights cols = cols.map (fun _ => 1) ∧
      usableWidth cols width height = width - 2 * LAYOUT_MARGIN_X) := by
  refine ⟨?_, ?_, ?_, ?_, fun h => ⟨?_, ?_⟩⟩
  · simp [colHeight, hn]
  · simp [laneY, hn]
  · simp [colHeight]
  · simp [laneY]
  · simp [laneWeights, laneWeight, h]
  · simp [usableWidth, h]

/-- Witness for `laneLayout_column_formulas` at a two-node column, row
index 0, an 800×500 viewport, and the one-singleton-column grouping. -/
theorem laneLayout_column_formulas_witness :
    (1 < 2) ∧
    (colHeight 2 = ((2 : ℚ) - 1) * ROW_SPACING ∧
     laneY 2 0 500 = ((500 : ℚ) - colHeight 2) / 2 + ((0 : Nat) : ℚ) * ROW_SPACING ∧
     colHeight 1 = 0 ∧
     laneY 1 0 500 = (500 : ℚ) / 2 ∧
     (maxColHeight [[5]] = 0 →
       laneWeights [[5]] = [[5]].map (fun _ => 1) ∧
       usableWidth [[5]] 800 500 = 800 - 2 * LAYOUT_MARGIN_X)) :=
  ⟨by norm_num, laneLayout_column_formulas [[5]] 2 0 800 500 (by norm_num)⟩

/-- C5 (amended): a build-effect run with an empty path list returns before
updating the state, so the previous node/edge lists — empty or not — are
kept; downstream stages are skipped exactly when the retained state has no
nodes, as it does in the initial state. -/
theorem updateGraphData_empty_paths_keeps_previous (prev : GraphData)
    (info : PageInfo) (searchTerm : String) :
    updateGraphData prev [] info searchTerm = some prev ∧
    rendersGraph { nodes := [], links := [] } = false := by
  constructor
  · simp [updateGraphData]
  · simp [rendersGraph]

/-- C5 counterexample: replacing a non-empty path set by an empty one keeps
the previous non-empty node list, instead of producing the empty node and
edge lists the claim asserts. -/
theorem updateGraphData_empty_paths_not_cleared :
    updateGraphData prevNonEmpty [] infoABCD "" = some prevNonEmpty ∧
    prevNonEmpty.nodes.length ≠ 0 := by
  constructor
  · simp [updateGraphData]
  · decide

/-- Helper: membership of a key in the node map after appending one node. -/
theorem hasNode_append_singleton (acc : List Node) (x : Node) (t : String) :
    hasNode (acc ++ [x]) t = (hasNode acc t || (x.id == t)) := by
  simp [hasNode, List.any_append]

/-- Helper: when no position of the path carries the title, `titleIdx`
finds nothing. -/
theorem titleIdx_eq_none_of_any_false (info : PageInfo) (t : String) :
    ∀ p : List Nat, p.any (fun pid => info pid == some t) = false →
      titleIdx info t p = none := by
  intro p
  induction p with
  | nil => intro _; rfl
  | cons pid rest ih =>
    intro h
    simp only [List.any_cons, Bool.or_eq_false_iff] at h
    simp [titleIdx, h.1, ih h.2]

/-- Helper: characterisation of one path's node pass.  Starting from the
accumulated node list `acc`, a successful pass over `p` with base index
`idx` appends exactly the nodes of the titles not yet present, each with
depth `idx` plus the index of its first occurrence in `p`, and afterwards a
title is present iff it was present before or occurs in `p`. -/
theorem insertPathNodes_spec (info : PageInfo) (sp ep : Option String) (pIdx : Nat) :
    ∀ (p : List Nat) (idx : Nat) (acc acc' : List Node),
      insertPathNodes info sp ep pIdx p idx acc = some acc' →
      ∃ newNodes, acc' = acc ++ newNodes ∧
        (∀ n ∈ newNodes, hasNode acc n.id = false ∧
          ∃ j, titleIdx info n.id p = some j ∧ n.depth = idx + j) ∧
        (∀ t, hasNode acc' t =
          (hasNode acc t || p.any (fun pid => info pid == some t))) := by
  intro p
  induction p with
  | nil =>
    intro idx acc acc' h
    simp only [insertPathNodes, Option.some.injEq] at h
    subst h
    exact ⟨[], by simp, by simp, fun t => by simp⟩
  | cons pid rest ih =>
    intro idx acc acc' h
    cases hinfo : info pid with
    | none => simp [insertPathNodes, hinfo] at h
    | some t0 =>
      simp only [insertPathNodes, hinfo] at h
      by_cases hmem : hasNode acc t0 = true
      · have hacc1 : insertNode sp ep pIdx idx t0 acc = acc := by
          simp [insertNode, hmem]
        rw [hacc1] at h
        obtain ⟨new1, hsplit, hprops, hkeys⟩ := ih (idx + 1) acc acc' h
        refine ⟨new1, hsplit, ?_, ?_⟩
        · intro n hn
          obtain ⟨habs, j, hj, hd⟩ := hprops n hn
          have hne : t0 ≠ n.id := by
            intro he
            rw [he] at hmem
            rw [hmem] at habs
            exact absurd habs (by simp)
          refine ⟨habs, j + 1, ?_, by omega⟩
          simp [titleIdx, hinfo, hne, hj]
        · intro t
          rw [hkeys t]
          by_cases ht : t0 = t
          · subst ht
            have : hasNode acc t0 = true := hmem
            simp [this, List.any_cons, hinfo]
          · have : (info pid == some t) = false := by
              simp only [hinfo, beq_eq_false_iff_ne, ne_eq, Option.some.injEq]
              exact ht
            simp [List.any_cons, this]
      · have hacc1 : insertNode sp ep pIdx idx t0 acc =
            acc ++ [mkNode sp ep pIdx idx t0] := by
          simp only [insertNode, hmem]
          simp
        rw [hacc1] at h
        obtain ⟨new1, hsplit, hprops, hkeys⟩ := ih (idx + 1) _ acc' h
        refine ⟨mkNode sp ep pIdx idx t0 :: new1, by simpa using hsplit, ?_, ?_⟩
        · intro n hn
          rcases List.mem_cons.1 hn with rfl | hn'
          · refine ⟨by simpa [mkNode] using hmem, 0, ?_, by simp [mkNode]⟩
            simp [titleIdx, hinfo, mkNode]
          · obtain ⟨habs, j, hj, hd⟩ := hprops n hn'
            rw [hasNode_append_singleton] at habs
            simp only [Bool.or_eq_false_iff] at habs
            have hne : t0 ≠ n.id := by
              intro he
              have := habs.2
              simp [mkNode, he] at this
            refine ⟨habs.1, j + 1, ?_, by omega⟩
            simp [titleIdx, hinfo, hne, hj]
        · intro t
          rw [hkeys t, hasNode_append_singleton]
          have hid : (mkNode sp ep pIdx idx t0).id = t0 := rfl
          rw [hid]
          by_cases ht : t0 = t
          · subst ht
            simp [List.any_cons, hinfo]
          · have h1 : (t0 == t) = false := by simp [ht]
            have h2 : (info pid == some t) = false := by
              simp only [hinfo, beq_eq_false_iff_ne, ne_eq, Option.some.injEq]
              exact ht
            simp [List.any_cons, h1, h2]

/-- Helper: characterisation of the full node pass over all paths: each
appended node's depth is the index of the first occurrence of its title,
scanning paths in order and positions left to right. -/
theorem buildNodes_spec (info : PageInfo) (sp ep : Option String) :
    ∀ (ps : List (List Nat)) (pIdx : Nat) (acc acc' : List Node),
      buildNodes info sp ep ps pIdx acc = some acc' →
      ∃ newNodes, acc' = acc ++ newNodes ∧
        (∀ n ∈ newNodes, hasNode acc n.id = false ∧
          firstOccurrenceDepth info ps n.id = some n.depth) ∧
        (∀ t, hasNode acc' t =
          (hasNode acc t || ps.any (fun p => p.any (fun pid => info pid == some t)))) := by
  intro ps
  induction ps with
  | nil =>
    intro pIdx acc acc' h
    simp only [buildNodes, Option.some.injEq] at h
    subst h
    exact ⟨[], by simp, by simp, fun t => by simp⟩
  | cons p ps' ih =>
    intro pIdx acc acc' h
    cases hi : insertPathNodes info sp ep pIdx p 0 acc with
    | none => simp [buildNodes, hi] at h
    | some acc1 =>
      simp only [buildNodes, hi] at h
      obtain ⟨new1, hs1, hp1, hk1⟩ := insertPathNodes_spec info sp ep pIdx p 0 acc acc1 hi
      obtain ⟨new2, hs2, hp2, hk2⟩ := ih (pIdx + 1) acc1 acc' h
      refine ⟨new1 ++ new2, by rw [hs2, hs1, List.append_assoc], ?_, ?_⟩
      · intro n hn
        rcases List.mem_append.1 hn with hn1 | hn2
        · obtain ⟨habs, j, hj, hd⟩ := hp1 n hn1
          refine ⟨habs, ?_⟩
          simp only [firstOccurrenceDepth, hj]
          rw [hd]
          simp
        · obtain ⟨habs1, hocc⟩ := hp2 n hn2
          rw [hk1 n.id] at habs1
          simp only [Bool.or_eq_false_iff] at habs1
          refine ⟨habs1.1, ?_⟩
          have hnone : titleIdx info n.id p = none :=
            titleIdx_eq_none_of_any_false info n.id p habs1.2
          simp only [firstOccurrenceDepth, hnone]
          exact hocc
      · intro t
        rw [hk2 t, hk1 t, List.any_cons]
        rw [Bool.or_assoc]

/-- C1 (amended): every node the graph build produces has `depth` equal to
the zero-based position index of the first occurrence of its identity,
scanning the paths in order and each path's positions left to right — the
minimum over the first path that contains the identity, not over all paths.
For sets of equal-length shortest paths between one start/end pair the two
notions coincide, as in the worked example `[[A,B,C],[A,D,C]]` with depths
A=0, B=1, D=1, C=2. -/
theorem node_depth_is_first_occurrence (paths : List (List Nat)) (info : PageInfo)
    (g : GraphData) (h : buildGraphData paths info = some g) :
    ∀ n ∈ g.nodes, firstOccurrenceDepth info paths n.id = some n.depth := by
  intro n hn
  simp only [buildGraphData] at h
  cases hb : buildNodes info (startPageOf paths info) (endPageOf paths info) paths 0 [] with
  | none => rw [hb] at h; exact absurd h (by simp)
  | some nodes =>
    rw [hb] at h
    cases hl : buildLinks info paths [] [] with
    | none => rw [hl] at h; exact absurd h (by simp)
    | some pr =>
      rw [hl] at h
      obtain ⟨_, links⟩ := pr
      simp only [Option.some.injEq] at h
      obtain ⟨newNodes, hsplit, hprops, _⟩ :=
        buildNodes_spec info (startPageOf paths info) (endPageOf paths info) paths 0 [] nodes hb
      have hg : g.nodes = nodes := by rw [← h]
      rw [hg] at hn
      rw [hsplit] at hn
      simp only [List.nil_append] at hn
      exact (hprops n hn).2

/-- Witness for `node_depth_is_first_occurrence` on the worked example
paths `[[A,B,C],[A,D,C]]`. -/
theorem node_depth_is_first_occurrence_witness :
    buildGraphData [[1, 2, 3], [1, 4, 3]] infoABCD = some exStructural ∧
    ∀ n ∈ exStructural.nodes,
      firstOccurrenceDepth infoABCD [[1, 2, 3], [1, 4, 3]] n.id = some n.depth :=
  ⟨by decide,
    node_depth_is_first_occurrence [[1, 2, 3], [1, 4, 3]] infoABCD exStructural (by decide)⟩

/-- C1 counterexample: for the path set `[[A,B],[B,C]]` the build assigns
`B` the depth `1` (its index in the first path that contains it), while the
minimum zero-based index of `B` across all paths is `0` (its position in the
second path), so depth is not the minimum across all paths. -/
theorem node_depth_not_min_across_paths :
    (buildGraphData [[1, 2], [2, 3]] infoABCD).map
        (fun g => g.nodes.map (fun n => (n.id, n.depth))) =
      some [("A", 0), ("B", 1), ("C", 1)] ∧
    specMinDepth infoABCD [[1, 2], [2, 3]] "B" = some 0 ∧ (1 : Nat) ≠ 0 := by
  refine ⟨by decide, by decide, by decide⟩

/-- Helper: a character list ending in a marker-separated suffix is
determined by the position of the first marker when neither prefix part
contains the marker. -/
theorem append_pipe_eq_iff (m : Char) :
    ∀ (as as' bs bs' : List Char), m ∉ as → m ∉ as' →
      as ++ m :: bs = as' ++ m :: bs' → as = as' ∧ bs = bs' := by
  intro as
  induction as with
  | nil =>
    intro as' bs bs' _ h2 h
    cases as' with
    | nil => simpa using h
    | cons c cs =>
      simp only [List.nil_append, List.cons_append, List.cons.injEq] at h
      exact absurd (h.1 ▸ List.mem_cons_self c cs) (by simpa [← h.1] using h2)
  | cons a as ih =>
    intro as' bs bs' h1 h2 h
    cases as' with
    | nil =>
      simp only [List.cons_append, List.nil_append, List.cons.injEq] at h
      exact absurd (List.mem_cons_self a as) (by simpa [h.1] using h1)
    | cons c cs =>
      simp only [List.cons_append, List.cons.injEq] at h
      obtain ⟨rfl, h'⟩ := h
      have hm1 : m ∉ as := fun hx => h1 (List.mem_cons_of_mem _ hx)
      have hm2 : m ∉ cs := fun hx => h2 (List.mem_cons_of_mem _ hx)
      obtain ⟨he1, he2⟩ := ih cs bs bs' hm1 hm2 h'
      exact ⟨by rw [he1], he2⟩

/-- Helper: on pipe-free source titles the deduplication key determines the
(source, target) pair. -/
theorem linkKey_inj {s t u v : String} (hs : PipeFreeTitle s) (hu : PipeFreeTitle u)
    (h : linkKey s t = linkKey u v) : s = u ∧ t = v := by
  have hd : s.data ++ '|' :: t.data = u.data ++ '|' :: v.data := by
    have hc := congrArg String.data h
    simpa [linkKey, String.data_append] using hc
  obtain ⟨h1, h2⟩ := append_pipe_eq_iff '|' s.data u.data t.data v.data hs hu hd
  exact ⟨String.ext h1, String.ext h2⟩

/-- Helper: a pair in the link list contributes its key to the key list. -/
theorem linkKey_mem_of_pair_mem {s t : String} {ls : List Link}
    (h : (s, t) ∈ linkPairs ls) : linkKey s t ∈ linkKeys ls := by
  simp only [linkPairs, List.mem_map, Prod.mk.injEq] at h
  obtain ⟨l, hl, h1, h2⟩ := h
  exact List.mem_map.2 ⟨l, hl, by rw [h1, h2]⟩

/-- Helper: on pipe-free titles, a key in the key list comes from a link
with exactly that pair. -/
theorem pair_mem_of_linkKey_mem {s t : String} {ls : List Link}
    (hs : PipeFreeTitle s)
    (hls : ∀ l ∈ ls, PipeFreeTitle l.source ∧ PipeFreeTitle l.target)
    (h : linkKey s t ∈ linkKeys ls) : (s, t) ∈ linkPairs ls := by
  simp only [linkKeys, List.mem_map] at h
  obtain ⟨l, hl, hk⟩ := h
  obtain ⟨h1, h2⟩ := linkKey_inj (hls l hl).1 hs hk
  exact List.mem_map.2 ⟨l, hl, by rw [h1, h2]⟩

/-- Helper: characterisation of the link pass over the consecutive pairs of
one path, under a pipe-free metadata table: the seen-key set stays exactly
the key list of the links, pairwise distinctness of the (source, target)
pairs is preserved, and afterwards a pair is present iff it was present
before or is a resolved consecutive pair of the processed list. -/
theorem addPairLinks_spec (info : PageInfo)
    (hpf : ∀ pid t, info pid = some t → PipeFreeTitle t) :
    ∀ (prs : List (Nat × Nat)) (seen : List String) (ls : List Link)
      (seen' : List String) (ls' : List Link),
      addPairLinks info prs seen ls = some (seen', ls') →
      seen = linkKeys ls →
      (∀ l ∈ ls, PipeFreeTitle l.source ∧ PipeFreeTitle l.target) →
      seen' = linkKeys ls' ∧
      (∀ l ∈ ls', PipeFreeTitle l.source ∧ PipeFreeTitle l.target) ∧
      ((linkPairs ls).Nodup → (linkPairs ls').Nodup) ∧
      (∀ s t : String, (s, t) ∈ linkPairs ls' ↔
        ((s, t) ∈ linkPairs ls ∨ ∃ q ∈ prs, info q.1 = some s ∧ info q.2 = some t)) := by
  intro prs
  induction prs with
  | nil =>
    intro seen ls seen' ls' h hseen hinv
    simp only [addPairLinks, Option.some.injEq, Prod.mk.injEq] at h
    obtain ⟨rfl, rfl⟩ := h
    exact ⟨hseen, hinv, fun hd => hd, fun s t => by simp⟩
  | cons q rest ih =>
    intro seen ls seen' ls' h hseen hinv
    obtain ⟨sId, tId⟩ := q
    cases hs : info sId with
    | none => simp [addPairLinks, hs] at h
    | some s0 =>
      cases htt : info tId with
      | none => simp [addPairLinks, hs, htt] at h
      | some t0 =>
        simp only [addPairLinks, hs, htt] at h
        by_cases hc : seen.contains (linkKey s0 t0) = true
        · rw [if_pos hc] at h
          have hpair : (s0, t0) ∈ linkPairs ls := by
            refine pair_mem_of_linkKey_mem (hpf sId s0 hs) hinv ?_
            rw [← hseen]
            exact List.contains_iff_exists_mem_beq.1 hc |>.elim
              (fun k hk => by
                obtain ⟨hk1, hk2⟩ := hk
                have : linkKey s0 t0 = k := by simpa using hk2
                rw [this]; exact hk1)
          obtain ⟨r1, r2, r3, r4⟩ := ih seen ls seen' ls' h hseen hinv
          refine ⟨r1, r2, r3, fun s t => ?_⟩
          rw [r4 s t]
          constructor
          · rintro (hin | ⟨q, hq, hq1, hq2⟩)
            · exact Or.inl hin
            · exact Or.inr ⟨q, List.mem_cons_of_mem _ hq, hq1, hq2⟩
          · rintro (hin | ⟨q, hq, hq1, hq2⟩)
            · exact Or.inl hin
            · rcases List.mem_cons.1 hq with rfl | hq'
              · simp only at hq1 hq2
                rw [hs] at hq1
                rw [htt] at hq2
                obtain rfl : s0 = s := by injection hq1
                obtain rfl : t0 = t := by injection hq2
                exact Or.inl hpair
              · exact Or.inr ⟨q, hq', hq1, hq2⟩
        · rw [if_neg hc] at h
          set newLink : Link :=
            { source := s0, target := t0, fromPage := replaceUnderscores s0,
              toPage := replaceUnderscores t0, isSearchHighlighted := false } with hnew
          have hseen2 : seen ++ [linkKey s0 t0] = linkKeys (ls ++ [newLink]) := by
            rw [hseen]
            simp [linkKeys, hnew]
          have hinv2 : ∀ l ∈ ls ++ [newLink],
              PipeFreeTitle l.source ∧ PipeFreeTitle l.target := by
            intro l hl
            rcases List.mem_append.1 hl with hl1 | hl2
            · exact hinv l hl1
            · have : l = newLink := by simpa using hl2
              rw [this, hnew]
              exact ⟨hpf sId s0 hs, hpf tId t0 htt⟩
          obtain ⟨r1, r2, r3, r4⟩ := ih _ _ seen' ls' h hseen2 hinv2
          have hnotin : (s0, t0) ∉ linkPairs ls := by
            intro hmem
            exact hc (by
              rw [hseen]
              have := linkKey_mem_of_pair_mem hmem
              exact List.contains_iff_exists_mem_beq.2 ⟨_, this, by simp⟩)
          have hpairs2 : linkPairs (ls ++ [newLink]) = linkPairs ls ++ [(s0, t0)] := by
            simp [linkPairs, hnew]
          refine ⟨r1, r2, fun hd => r3 ?_, fun s t => ?_⟩
          · rw [hpairs2]
            simpa [List.nodup_append] using ⟨hd, hnotin⟩
          · rw [r4 s t, hpairs2]
            constructor
            · rintro (hin | ⟨q, hq, hq1, hq2⟩)
              · rcases List.mem_append.1 hin with hin1 | hin2
                · exact Or.inl hin1
                · have : (s, t) = (s0, t0) := by simpa using hin2
                  obtain ⟨rfl, rfl⟩ := Prod.mk.injEq .. ▸ this
                  refine Or.inr ⟨(sId, tId), List.mem_cons_self _ _, ?_, ?_⟩
                  · simpa using hs
                  · simpa using htt
              · exact Or.inr ⟨q, List.mem_cons_of_mem _ hq, hq1, hq2⟩
            · rintro (hin | ⟨q, hq, hq1, hq2⟩)
              · exact Or.inl (List.mem_append.2 (Or.inl hin))
              · rcases List.mem_cons.1 hq with rfl | hq'
                · simp only at hq1 hq2
                  rw [hs] at hq1
                  rw [htt] at hq2
                  obtain rfl : s0 = s := by injection hq1
                  obtain rfl : t0 = t := by injection hq2
                  exact Or.inl (List.mem_append.2 (Or.inr (by simp)))
                · exact Or.inr ⟨q, hq', hq1, hq2⟩

/-- Helper: characterisation of the link pass over all paths. -/
theorem buildLinks_spec (info : PageInfo)
    (hpf : ∀ pid t, info pid = some t → PipeFreeTitle t) :
    ∀ (ps : List (List Nat)) (seen : List String) (ls : List Link)
      (seen' : List String) (ls' : List Link),
      buildLinks info ps seen ls = some (seen', ls') →
      seen = linkKeys ls →
      (∀ l ∈ ls, PipeFreeTitle l.source ∧ PipeFreeTitle l.target) →
      seen' = linkKeys ls' ∧
      (∀ l ∈ ls', PipeFreeTitle l.source ∧ PipeFreeTitle l.target) ∧
      ((linkPairs ls).Nodup → (linkPairs ls').Nodup) ∧
      (∀ s t : String, (s, t) ∈ linkPairs ls' ↔
        ((s, t) ∈ linkPairs ls ∨
          ∃ p ∈ ps, ∃ q ∈ pathPairs p, info q.1 = some s ∧ info q.2 = some t)) := by
  intro ps
  induction ps with
  | nil =>
    intro seen ls seen' ls' h hseen hinv
    simp only [buildLinks, Option.some.injEq, Prod.mk.injEq] at h
    obtain ⟨rfl, rfl⟩ := h
    exact ⟨hseen, hinv, fun hd => hd, fun s t => by simp⟩
  | cons p ps' ih =>
    intro seen ls seen' ls' h hseen hinv
    cases ha : addPairLinks info (pathPairs p) seen ls with
    | none => simp [buildLinks, ha] at h
    | some pr =>
      obtain ⟨seen1, ls1⟩ := pr
      simp only [buildLinks, ha] at h
      obtain ⟨a1, a2, a3, a4⟩ :=
        addPairLinks_spec info hpf (pathPairs p) seen ls seen1 ls1 ha hseen hinv
      obtain ⟨b1, b2, b3, b4⟩ := ih seen1 ls1 seen' ls' h a1 a2
      refine ⟨b1, b2, fun hd => b3 (a3 hd), fun s t => ?_⟩
      rw [b4 s t, a4 s t]
      constructor
      · rintro ((hin | ⟨q, hq, hq1, hq2⟩) | ⟨p1, hp1, q, hq, hq1, hq2⟩)
        · exact Or.inl hin
        · exact Or.inr ⟨p, List.mem_cons_self _ _, q, hq, hq1, hq2⟩
        · exact Or.inr ⟨p1, List.mem_cons_of_mem _ hp1, q, hq, hq1, hq2⟩
      · rintro (hin | ⟨p1, hp1, q, hq, hq1, hq2⟩)
        · exact Or.inl (Or.inl hin)
        · rcases List.mem_cons.1 hp1 with rfl | hp1'
          · exact Or.inl (Or.inr ⟨q, hq, hq1, hq2⟩)
          · exact Or.inr ⟨p1, hp1', q, hq, hq1, hq2⟩

/-- C2 (amended): under a metadata table whose titles do not contain the
`|` character used to build the deduplication key, the link list contains
exactly one edge per distinct ordered (source, target) pair of consecutive
nodes appearing in any path: the pair list is duplicate-free and a pair
occurs in it iff it is a resolved consecutive pair of some path.  Without
the pipe-free restriction two distinct pairs can collide on the same key
(see `link_dedup_key_collision`). -/
theorem links_dedup_by_ordered_pair (paths : List (List Nat)) (info : PageInfo)
    (g : GraphData) (h : buildGraphData paths info = some g)
    (hpf : ∀ pid t, info pid = some t → PipeFreeTitle t) :
    (linkPairs g.links).Nodup ∧
    ∀ s t : String, ((s, t) ∈ linkPairs g.links ↔ IsConsecutivePair info paths s t) := by
  simp only [buildGraphData] at h
  cases hb : buildNodes info (startPageOf paths info) (endPageOf paths info) paths 0 [] with
  | none => rw [hb] at h; exact absurd h (by simp)
  | some nodes =>
    rw [hb] at h
    cases hl : buildLinks info paths [] [] with
    | none => rw [hl] at h; exact absurd h (by simp)
    | some pr =>
      rw [hl] at h
      obtain ⟨seen, links⟩ := pr
      simp only [Option.some.injEq] at h
      have hg : g.links = links := by rw [← h]
      obtain ⟨_, _, r3, r4⟩ :=
        buildLinks_spec info hpf paths [] [] seen links hl (by simp [linkKeys])
          (by simp)
      rw [hg]
      refine ⟨r3 (by simp [linkPairs]), fun s t => ?_⟩
      rw [r4 s t]
      simp only [linkPairs, List.map_nil, List.not_mem_nil, false_or]
      exact Iff.rfl

/-- Witness for `links_dedup_by_ordered_pair` on the worked example paths
`[[A,B],[A,B],[A,B,C]]`, whose edge list is exactly `[A→B, B→C]`. -/
theorem links_dedup_by_ordered_pair_witness :
    (buildGraphData [[1, 2], [1, 2], [1, 2, 3]] infoABCD = some exDedup ∧
      linkPairs exDedup.links = [("A", "B"), ("B", "C")]) ∧
    ((linkPairs exDedup.links).Nodup ∧
      ∀ s t : String, ((s, t) ∈ linkPairs exDedup.links ↔
        IsConsecutivePair infoABCD [[1, 2], [1, 2], [1, 2, 3]] s t)) :=
  ⟨⟨by decide, by decide⟩,
    links_dedup_by_ordered_pair [[1, 2], [1, 2], [1, 2, 3]] infoABCD exDedup
      (by decide)
      (by
        intro pid t ht
        unfold PipeFreeTitle
        simp only [infoABCD] at ht
        split_ifs at ht <;>
          first
          | (injection ht with ht2; subst ht2; decide)
          | exact Option.noConfusion ht)⟩

/-- C2 counterexample: with titles containing the separator character, the
distinct ordered pairs (a, b|c) and (a|b, c) collide on the key `a|b|c`, so
the paths `[[a, b|c], [a|b, c]]` produce a single edge although they have
two distinct ordered consecutive pairs — the pair (a|b, c) gets no edge. -/
theorem link_dedup_key_collision :
    (buildGraphData [[1, 2], [3, 4]] infoPipe).map (fun g => linkPairs g.links) =
      some [("a", "b|c")] ∧
    IsConsecutivePair infoPipe [[1, 2], [3, 4]] "a|b" "c" ∧
    ("a|b", ("c" : String)) ∉ [(("a" : String), ("b|c" : String))] :=
  ⟨by decide,
    ⟨[3, 4], by decide, (3, 4), by decide, by decide, by decide⟩,
    by decide⟩

/-- Helper: the search-flag pass never changes the structural content of
the graph state, only the derived search flags. -/
theorem stripGraph_decorateSearch (s : String) (g : GraphData) :
    stripGraph (decorateSearch s g) = stripGraph g := by
  simp only [decorateSearch, stripGraph]
  split
  · refine Prod.ext ?_ ?_ <;>
    · simp only [List.map_map]
      refine List.map_congr_left fun a _ => ?_
      simp [stripNode, stripLink, Function.comp]
  · refine Prod.ext ?_ ?_ <;>
    · simp only [List.map_map]
      refine List.map_congr_left fun a _ => ?_
      · simp only [Function.comp]
        first
        | (split <;> simp [stripNode, stripLink])
        | simp [stripNode, stripLink]

/-- Helper: the search-flag pass keeps the node count. -/
theorem decorateSearch_nodes_length (s : String) (g : GraphData) :
    (decorateSearch s g).nodes.length = g.nodes.length := by
  simp only [decorateSearch]
  split <;> simp

/-- Helper: the search-flag pass keeps the link count. -/
theorem decorateSearch_links_length (s : String) (g : GraphData) :
    (decorateSearch s g).links.length = g.links.length := by
  simp only [decorateSearch]
  split <;> simp

/-- C3: with the path set and metadata fixed, two build-effect runs that
differ only in the search term produce states with identical structural
content (same node and link lists up to the derived search flags — the
structural build `buildGraphData` does not even take the term as an input,
and the title-visibility toggle is an input of no build or trigger function
at all); their node/link/path counts therefore coincide, so with unchanged
viewport dimensions the `hasStructuralChanges`/`dimensionsChanged` guard is
false and the fit-to-view camera operation is not triggered. -/
theorem searchTerm_change_keeps_structure (paths : List (List Nat)) (info : PageInfo)
    (s1 s2 : String) (g1 g2 : GraphData)
    (h1 : (buildGraphData paths info).map (decorateSearch s1) = some g1)
    (h2 : (buildGraphData paths info).map (decorateSearch s2) = some g2) :
    stripGraph g1 = stripGraph g2 ∧
    hasStructuralChanges (structuralDataOf g1 paths) (structuralDataOf g2 paths) = false ∧
    ∀ d : Dimensions,
      shouldZoomToFit (structuralDataOf g1 paths) (structuralDataOf g2 paths) d d = false := by
  cases hb : buildGraphData paths info with
  | none => rw [hb] at h1; simp at h1
  | some g0 =>
    rw [hb] at h1 h2
    simp only [Option.map_some', Option.some.injEq] at h1 h2
    subst h1; subst h2
    refine ⟨?_, ?_, ?_⟩
    · rw [stripGraph_decorateSearch, stripGraph_decorateSearch]
    · simp [hasStructuralChanges, structuralDataOf, decorateSearch_nodes_length,
        decorateSearch_links_length]
    · intro d
      simp [shouldZoomToFit, hasStructuralChanges, dimensionsChanged, structuralDataOf,
        decorateSearch_nodes_length, decorateSearch_links_length]

/-- Witness for `searchTerm_change_keeps_structure` on the worked example
with the empty term versus the term `"b"`. -/
theorem searchTerm_change_keeps_structure_witness :
    ((buildGraphData [[1, 2, 3], [1, 4, 3]] infoABCD).map (decorateSearch "") =
        some (decorateSearch "" exStructural) ∧
      (buildGraphData [[1, 2, 3], [1, 4, 3]] infoABCD).map (decorateSearch "b") =
        some (decorateSearch "b" exStructural)) ∧
    (stripGraph (decorateSearch "" exStructural) =
        stripGraph (decorateSearch "b" exStructural) ∧
      hasStructuralChanges
          (structuralDataOf (decorateSearch "" exStructural) [[1, 2, 3], [1, 4, 3]])
          (structuralDataOf (decorateSearch "b" exStructural) [[1, 2, 3], [1, 4, 3]]) = false ∧
      ∀ d : Dimensions,
        shouldZoomToFit
            (structuralDataOf (decorateSearch "" exStructural) [[1, 2, 3], [1, 4, 3]])
            (structuralDataOf (decorateSearch "b" exStructural) [[1, 2, 3], [1, 4, 3]])
            d d = false) :=
  ⟨⟨by decide, by decide⟩,
    searchTerm_change_keeps_structure [[1, 2, 3], [1, 4, 3]] infoABCD "" "b" _ _
      (by decide) (by decide)⟩

/-- Helper: stable insertion commutes with mapping along a function that
translates the comparator. -/
theorem insertBy_map {α β : Type} (f : α → β) (le : α → α → Bool) (le' : β → β → Bool)
    (hc : ∀ a b, le' (f a) (f b) = le a b) (a : α) :
    ∀ l : List α, insertBy le' (f a) (l.map f) = (insertBy le a l).map f := by
  intro l
  induction l with
  | nil => rfl
  | cons b bs ih =>
    simp only [List.map_cons, insertBy, hc a b]
    by_cases h : le a b = true
    · simp [h]
    · simp only [Bool.not_eq_true] at h
      simp [h, ih]

/-- Helper: stable sorting commutes with mapping along a function that
translates the comparator. -/
theorem sortBy_map {α β : Type} (f : α → β) (le : α → α → Bool) (le' : β → β → Bool)
    (hc : ∀ a b, le' (f a) (f b) = le a b) :
    ∀ l : List α, sortBy le' (l.map f) = (sortBy le l).map f := by
  intro l
  induction l with
  | nil => rfl
  | cons a as ih =>
    simp only [List.map_cons, sortBy, ih]
    exact insertBy_map f le le' hc a (sortBy le as)

/-- Helper: `getD` after `map`. -/
theorem getD_map_eq {α β : Type} (f : α → β) (d : α) :
    ∀ (l : List α) (i : Nat), (l.map f).getD i (f d) = f (l.getD i d) := by
  intro l
  induction l with
  | nil => intro i; rfl
  | cons a as ih =>
    intro i
    cases i with
    | zero => rfl
    | succ j => simpa using ih j

/-- Helper: sorting two comparator-equal ways gives the same list. -/
theorem sortBy_congr {α : Type} (le le' : α → α → Bool)
    (hc : ∀ a b, le a b = le' a b) : ∀ l : List α, sortBy le l = sortBy le' l := by
  have hins : ∀ (a : α) (l : List α), insertBy le a l = insertBy le' a l := by
    intro a l
    induction l with
    | nil => rfl
    | cons b bs ih => simp only [insertBy, hc a b, ih]
  intro l
  induction l with
  | nil => rfl
  | cons a as ih => simp only [sortBy, ih, hins]

/-- Helper: the rational median of a cast list is half the doubled natural
median. -/
theorem median_cast (l : List Nat) :
    median (l.map (fun n : Nat => (n : ℚ))) =
      (medianDoubled l).map (fun d : Nat => (d : ℚ) / 2) := by
  have hsort : sortBy (fun x y => decide (x ≤ y)) (l.map (fun n : Nat => (n : ℚ))) =
      (sortBy (fun x y => decide (x ≤ y)) l).map (fun n : Nat => (n : ℚ)) :=
    sortBy_map (fun n : Nat => (n : ℚ)) (fun x y => decide (x ≤ y))
      (fun x y => decide (x ≤ y)) (fun a b => by simp) l
  cases l with
  | nil => rfl
  | cons a0 as =>
    simp only [median, medianDoubled, hsort]
    set a := sortBy (fun x y => decide (x ≤ y)) (a0 :: as) with ha
    rw [List.length_map]
    have hgd : ∀ i : Nat,
        (List.map (fun n : Nat => (n : ℚ)) a).getD i 0 = ((a.getD i 0 : Nat) : ℚ) := by
      intro i
      have h0 : ((0 : Nat) : ℚ) = 0 := Nat.cast_zero
      rw [← h0, getD_map_eq (fun n : Nat => (n : ℚ)) 0 a i]
    simp only [List.map_cons, List.isEmpty_cons, Bool.false_eq_true, if_false, hgd]
    by_cases hp : a.length % 2 = 1
    · simp only [hp, if_true, Option.map_some]
      congr 1
      push_cast
      ring
    · simp only [hp, if_false, Option.map_some]
      congr 1
      push_cast
      ring

/-- Helper: comparing halved rational keys is comparing the doubled natural
keys. -/
theorem keyLE_cast (x y : Option Nat) :
    keyLE (x.map (fun d : Nat => (d : ℚ) / 2)) (y.map (fun d : Nat => (d : ℚ) / 2)) =
      keyLEN x y := by
  cases x with
  | none => cases y <;> rfl
  | some a =>
    cases y with
    | none => rfl
    | some b =>
      simp only [Option.map_some, keyLE, keyLEN]
      have h2 : ((a : ℚ) / 2 ≤ (b : ℚ) / 2) ↔ ((a : ℚ) ≤ (b : ℚ)) :=
        div_le_div_iff_of_pos_right (by norm_num)
      have h3 : ((a : ℚ) ≤ (b : ℚ)) ↔ (a ≤ b) := Nat.cast_le
      simp [h2, h3]

/-- Helper: the rational median key is the halved doubled natural key. -/
theorem medianKey_eq_half (refOrder neighbors : List Nat) :
    medianKey refOrder neighbors =
      (medianKeyN refOrder neighbors).map (fun d : Nat => (d : ℚ) / 2) := by
  simp only [medianKey, medianKeyN]
  rw [← median_cast]
  congr 1
  rw [List.map_map]
  rfl

/-- Helper: the rational column sort equals the natural-number column
sort. -/
theorem sortColumn_eq_nat (refOrder : List Nat) (adj : Nat → List Nat) (cur : List Nat) :
    sortColumn refOrder adj cur = sortColumnN refOrder adj cur := by
  refine sortBy_congr _ _ ?_ cur
  intro a b
  rw [medianKey_eq_half, medianKey_eq_half, keyLE_cast]

/-- Helper: the rational top-down sweep equals the natural-number one. -/
theorem downSweep_eq_nat (inc : Nat → List Nat) :
    ∀ (cols : List (List Nat)) (prev : List Nat),
      downSweep inc prev cols = downSweepN inc prev cols := by
  intro cols
  induction cols with
  | nil => intro prev; rfl
  | cons c rest ih =>
    intro prev
    simp only [downSweep, downSweepN, sortColumn_eq_nat, ih]

/-- Helper: the rational bottom-up sweep equals the natural-number one. -/
theorem upSweep_eq_nat (out : Nat → List Nat) :
    ∀ cols : List (List Nat), upSweep out cols = upSweepN out cols := by
  intro cols
  induction cols with
  | nil => rfl
  | cons c rest ih =>
    cases rest with
    | nil => rfl
    | cons next rest2 =>
      simp only [upSweep, upSweepN, ← ih, sortColumn_eq_nat]

/-- Helper: the rational solver equals the natural-number solver, so the
kernel can evaluate it on concrete inputs. -/
theorem orderColumnsByMedian_eq_nat (out inc : Nat → List Nat) (cols : List (List Nat)) :
    orderColumnsByMedian out inc cols = orderColumnsByMedianN out inc cols := by
  have hsw : ∀ cs : List (List Nat), sweepOnce out inc cs = sweepOnceN out inc cs := by
    intro cs
    cases cs with
    | nil => simp [sweepOnce, sweepOnceN, upSweep_eq_nat]
    | cons c0 rest =>
      simp only [sweepOnce, sweepOnceN, upSweep_eq_nat, downSweep_eq_nat]
  simp only [orderColumnsByMedian, orderColumnsByMedianN, hsw]

/-- Helper: stable insertion permutes. -/
theorem insertBy_perm {α : Type} (le : α → α → Bool) (a : α) :
    ∀ l : List α, (insertBy le a l).Perm (a :: l) := by
  intro l
  induction l with
  | nil => exact List.Perm.refl _
  | cons b bs ih =>
    simp only [insertBy]
    by_cases h : le a b = true
    · simp [h]
    · simp only [Bool.not_eq_true] at h
      simp only [h, Bool.false_eq_true, if_false]
      exact (ih.cons b).trans (List.Perm.swap a b bs)

/-- Helper: stable sorting permutes. -/
theorem sortBy_perm {α : Type} (le : α → α → Bool) :
    ∀ l : List α, (sortBy le l).Perm l := by
  intro l
  induction l with
  | nil => exact List.Perm.refl _
  | cons a as ih =>
    simp only [sortBy]
    exact (insertBy_perm le a (sortBy le as)).trans (ih.cons a)

/-- Helper: transitivity of columnwise permutation. -/
theorem forall₂_perm_trans {α : Type} :
    ∀ {a b c : List (List α)}, List.Forall₂ List.Perm a b → List.Forall₂ List.Perm b c →
      List.Forall₂ List.Perm a c := by
  intro a b c h1
  induction h1 generalizing c with
  | nil =>
    intro h2
    cases h2
    exact List.Forall₂.nil
  | cons hab htail ih =>
    intro h2
    cases h2 with
    | cons hbc htail2 => exact List.Forall₂.cons (hab.trans hbc) (ih htail2)

/-- Helper: the top-down sweep permutes every column in place. -/
theorem downSweep_forall₂_perm (inc : Nat → List Nat) :
    ∀ (cols : List (List Nat)) (prev : List Nat),
      List.Forall₂ List.Perm (downSweep inc prev cols) cols := by
  intro cols
  induction cols with
  | nil => intro prev; exact List.Forall₂.nil
  | cons c rest ih =>
    intro prev
    exact List.Forall₂.cons (sortBy_perm _ c) (ih _)

/-- Helper: the bottom-up sweep permutes every column in place. -/
theorem upSweep_forall₂_perm (out : Nat → List Nat) :
    ∀ cols : List (List Nat), List.Forall₂ List.Perm (upSweep out cols) cols := by
  intro cols
  induction cols with
  | nil => exact List.Forall₂.nil
  | cons c rest ih =>
    cases rest with
    | nil => exact List.Forall₂.cons (List.Perm.refl c) List.Forall₂.nil
    | cons next rest2 =>
      simp only [upSweep]
      cases hup : upSweep out (next :: rest2) with
      | nil =>
        rw [hup] at ih
        cases ih
      | cons next' rest' =>
        rw [hup] at ih
        cases ih with
        | cons hhead htail =>
          exact List.Forall₂.cons (sortBy_perm _ c)
            (List.Forall₂.cons hhead htail)

/-- Helper: one full sweep permutes every column in place. -/
theorem sweepOnce_forall₂_perm (out inc : Nat → List Nat) (cols : List (List Nat)) :
    List.Forall₂ List.Perm (sweepOnce out inc cols) cols := by
  cases cols with
  | nil => exact upSweep_forall₂_perm out []
  | cons c0 rest =>
    refine forall₂_perm_trans (upSweep_forall₂_perm out _) ?_
    exact List.Forall₂.cons (List.Perm.refl c0) (downSweep_forall₂_perm inc rest c0)

/-- Helper: the two-sweep solver permutes every column in place. -/
theorem orderColumnsByMedian_forall₂_perm (out inc : Nat → List Nat)
    (cols : List (List Nat)) :
    List.Forall₂ List.Perm (orderColumnsByMedian out inc cols) cols :=
  forall₂_perm_trans (sweepOnce_forall₂_perm out inc _) (sweepOnce_forall₂_perm out inc cols)

/-- C6 (amended): applying the Depth-Ordering Solver a second time to the
ordering it already produced keeps the membership of every depth column —
each column of the re-run output is a permutation of the corresponding
column of the first output — but the intra-column order is not in general a
fixed point after two sweeps: `orderColumnsByMedian_not_idempotent` shows a
two-column graph whose second run changes the order of the deeper column. -/
theorem orderColumnsByMedian_second_run_permutes_columns (out inc : Nat → List Nat)
    (cols : List (List Nat)) :
    List.Forall₂ List.Perm
      (orderColumnsByMedian out inc (orderColumnsByMedian out inc cols))
      (orderColumnsByMedian out inc cols) :=
  orderColumnsByMedian_forall₂_perm out inc (orderColumnsByMedian out inc cols)

/-- C6 counterexample: on the two-column graph with columns
`[[0,1,2,3],[4,5,6,7]]` and edges 0→4, 0→7, 1→5, 1→6, 1→7, 2→5, 2→7, 3→4,
the solver maps the initial order to `[[1,2,0,3],[6,7,5,4]]`, but a second
application yields `[[1,2,0,3],[6,5,7,4]]`: the output is not a fixed point
of the solver. -/
theorem orderColumnsByMedian_not_idempotent :
    orderColumnsByMedian cexOut cexInc
        (orderColumnsByMedian cexOut cexInc [[0, 1, 2, 3], [4, 5, 6, 7]]) ≠
      orderColumnsByMedian cexOut cexInc [[0, 1, 2, 3], [4, 5, 6, 7]] := by
  simp only [orderColumnsByMedian_eq_nat]
  decide

/-- Helper: a fold of minima is bounded by its initial value. -/
theorem foldl_min_le_init {α : Type} (f : α → ℚ) :
    ∀ (l : List α) (init : ℚ), l.foldl (fun m v => min m (f v)) init ≤ init := by
  intro l
  induction l with
  | nil => intro init; simp
  | cons a as ih =>
    intro init
    exact le_trans (ih _) (min_le_left _ _)

/-- Helper: a fold of minima is bounded by every member's value. -/
theorem foldl_min_le_mem {α : Type} (f : α → ℚ) :
    ∀ (l : List α) (init : ℚ) (a : α), a ∈ l →
      l.foldl (fun m v => min m (f v)) init ≤ f a := by
  intro l
  induction l with
  | nil => intro init a ha; cases ha
  | cons b bs ih =>
    intro init a ha
    rcases List.mem_cons.1 ha with rfl | h
    · exact le_trans (foldl_min_le_init f bs _) (min_le_right _ _)
    · exact ih _ a h

/-- Helper: a fold of maxima dominates its initial value. -/
theorem init_le_foldl_max {α : Type} (f : α → ℚ) :
    ∀ (l : List α) (init : ℚ), init ≤ l.foldl (fun m v => max m (f v)) init := by
  intro l
  induction l with
  | nil => intro init; simp
  | cons a as ih =>
    intro init
    exact le_trans (le_max_left _ _) (ih _)

/-- Helper: a fold of maxima dominates every member's value. -/
theorem mem_le_foldl_max {α : Type} (f : α → ℚ) :
    ∀ (l : List α) (init : ℚ) (a : α), a ∈ l →
      f a ≤ l.foldl (fun m v => max m (f v)) init := by
  intro l
  induction l with
  | nil => intro init a ha; cases ha
  | cons b bs ih =>
    intro init a ha
    rcases List.mem_cons.1 ha with rfl | h
    · exact le_trans (le_max_right _ _) (init_le_foldl_max f bs _)
    · exact ih _ a h

/-- Helper: the padded bounding box encloses every node horizontally from
the left. -/
theorem bbMinX_le (r : ℚ) (nodes : List VNode) (n : VNode) (hn : n ∈ nodes) :
    bbMinX r nodes ≤ posX n - r := by
  cases nodes with
  | nil => cases hn
  | cons n0 ns =>
    rcases List.mem_cons.1 hn with rfl | h
    · exact foldl_min_le_init _ ns _
    · exact foldl_min_le_mem _ ns _ n h

/-- Helper: the padded bounding box encloses every node horizontally from
the right. -/
theorem le_bbMaxX (r : ℚ) (nodes : List VNode) (n : VNode) (hn : n ∈ nodes) :
    posX n + r ≤ bbMaxX r nodes := by
  cases nodes with
  | nil => cases hn
  | cons n0 ns =>
    rcases List.mem_cons.1 hn with rfl | h
    · exact init_le_foldl_max _ ns _
    · exact mem_le_foldl_max _ ns _ n h

/-- Helper: the padded bounding box encloses every node vertically from
above. -/
theorem bbMinY_le (r : ℚ) (nodes : List VNode) (n : VNode) (hn : n ∈ nodes) :
    bbMinY r nodes ≤ posY n - r := by
  cases nodes with
  | nil => cases hn
  | cons n0 ns =>
    rcases List.mem_cons.1 hn with rfl | h
    · exact foldl_min_le_init _ ns _
    · exact foldl_min_le_mem _ ns _ n h

/-- Helper: the padded bounding box encloses every node vertically from
below. -/
theorem le_bbMaxY (r : ℚ) (nodes : List VNode) (n : VNode) (hn : n ∈ nodes) :
    posY n + r ≤ bbMaxY r nodes := by
  cases nodes with
  | nil => cases hn
  | cons n0 ns =>
    rcases List.mem_cons.1 hn with rfl | h
    · exact init_le_foldl_max _ ns _
    · exact mem_le_foldl_max _ ns _ n h

/-- C7 (amended): with at least one node and a viewport at least as large
as twice the margin in each dimension, `zoomToFit` produces a transform
whose scale is `min(1.2, width-fit scale, height-fit scale)`, which maps
the centroid of the padded bounding box to the viewport centre, and under
which every node's screen-projected position lies within the viewport inset
by the margin.  For viewports smaller than twice the margin the fit scale
is negative and the margin bound fails
(`zoomToFit_small_viewport_violates_margin`). -/
theorem zoomToFit_fits (nodes : List VNode) (width height : ℚ)
    (hne : nodes ≠ []) (hw : 20 ≤ width) (hh : 20 ≤ height) :
    ∃ t, zoomToFit nodes width height 14 10 10 = some t ∧
      t.k = min 1.2 (min
        ((width - 2 * 10) / max 1 (bbMaxX 14 nodes - bbMinX 14 nodes))
        ((height - 2 * 10) / max 1 (bbMaxY 14 nodes - bbMinY 14 nodes))) ∧
      applyX t ((bbMinX 14 nodes + bbMaxX 14 nodes) / 2) = width / 2 ∧
      applyY t ((bbMinY 14 nodes + bbMaxY 14 nodes) / 2) = height / 2 ∧
      ∀ n ∈ nodes,
        (10 ≤ applyX t (posX n) ∧ applyX t (posX n) ≤ width - 10) ∧
        (10 ≤ applyY t (posY n) ∧ applyY t (posY n) ≤ height - 10) := by
  have hempty : nodes.isEmpty = false := by
    cases nodes with
    | nil => exact absurd rfl hne
    | cons a l => rfl
  set minX := bbMinX 14 nodes with hminX
  set maxX := bbMaxX 14 nodes with hmaxX
  set minY := bbMinY 14 nodes with hminY
  set maxY := bbMaxY 14 nodes with hmaxY
  set graphW := max 1 (maxX - minX) with hgw
  set graphH := max 1 (maxY - minY) with hgh
  set k := min (1.2 : ℚ) (min ((width - 2 * 10) / graphW) ((height - 2 * 10) / graphH))
    with hk
  refine ⟨{ k := k, tx := width / 2 - k * ((minX + maxX) / 2),
            ty := height / 2 - k * ((minY + maxY) / 2) }, ?_, rfl, ?_, ?_, ?_⟩
  · simp only [zoomToFit, hempty, Bool.false_eq_true, if_false]
  · simp only [applyX]
    ring
  · simp only [applyY]
    ring
  · intro n hn
    have h1 : minX ≤ posX n - 14 := bbMinX_le 14 nodes n hn
    have h2 : posX n + 14 ≤ maxX := le_bbMaxX 14 nodes n hn
    have h3 : minY ≤ posY n - 14 := bbMinY_le 14 nodes n hn
    have h4 : posY n + 14 ≤ maxY := le_bbMaxY 14 nodes n hn
    have hgw1 : (1 : ℚ) ≤ graphW := le_max_left _ _
    have hgw2 : maxX - minX ≤ graphW := le_max_right _ _
    have hgh1 : (1 : ℚ) ≤ graphH := le_max_left _ _
    have hgh2 : maxY - minY ≤ graphH := le_max_right _ _
    have hkw : k * graphW ≤ width - 2 * 10 := by
      have hle : k ≤ (width - 2 * 10) / graphW :=
        le_trans (min_le_right _ _) (min_le_left _ _)
      have := mul_le_mul_of_nonneg_right hle (by linarith : (0 : ℚ) ≤ graphW)
      rwa [div_mul_cancel₀ _ (by linarith : graphW ≠ 0)] at this
    have hkh : k * graphH ≤ height - 2 * 10 := by
      have hle : k ≤ (height - 2 * 10) / graphH :=
        le_trans (min_le_right _ _) (min_le_right _ _)
      have := mul_le_mul_of_nonneg_right hle (by linarith : (0 : ℚ) ≤ graphH)
      rwa [div_mul_cancel₀ _ (by linarith : graphH ≠ 0)] at this
    have hkpos : 0 ≤ k := by
      refine le_min (by norm_num) (le_min ?_ ?_)
      · exact div_nonneg (by linarith) (by linarith)
      · exact div_nonneg (by linarith) (by linarith)
    have hux : posX n - (minX + maxX) / 2 ≤ graphW / 2 := by linarith
    have hlx : -(graphW / 2) ≤ posX n - (minX + maxX) / 2 := by linarith
    have huy : posY n - (minY + maxY) / 2 ≤ graphH / 2 := by linarith
    have hly : -(graphH / 2) ≤ posY n - (minY + maxY) / 2 := by linarith
    have mx1 := mul_le_mul_of_nonneg_left hux hkpos
    have mx2 := mul_le_mul_of_nonneg_left hlx hkpos
    have my1 := mul_le_mul_of_nonneg_left huy hkpos
    have my2 := mul_le_mul_of_nonneg_left hly hkpos
    have ex1 : k * (posX n - (minX + maxX) / 2) = k * posX n - k * ((minX + maxX) / 2) := by
      ring
    have ew1 : k * (graphW / 2) = k * graphW / 2 := by ring
    have ew2 : k * (-(graphW / 2)) = -(k * graphW / 2) := by ring
    have ey1 : k * (posY n - (minY + maxY) / 2) = k * posY n - k * ((minY + maxY) / 2) := by
      ring
    have eh1 : k * (graphH / 2) = k * graphH / 2 := by ring
    have eh2 : k * (-(graphH / 2)) = -(k * graphH / 2) := by ring
    refine ⟨⟨?_, ?_⟩, ?_, ?_⟩
    · simp only [applyX]
      linarith [mx2, ex1, ew2, hkw]
    · simp only [applyX]
      linarith [mx1, ex1, ew1, hkw]
    · simp only [applyY]
      linarith [my2, ey1, eh2, hkh]
    · simp only [applyY]
      linarith [my1, ey1, eh1, hkh]

/-- Witness for `zoomToFit_fits` at a single node in an 800×500 viewport. -/
theorem zoomToFit_fits_witness :
    (([⟨some 0, some 0⟩] : List VNode) ≠ [] ∧ (20 : ℚ) ≤ 800 ∧ (20 : ℚ) ≤ 500) ∧
    (∃ t, zoomToFit [⟨some 0, some 0⟩] 800 500 14 10 10 = some t ∧
      t.k = min 1.2 (min
        ((800 - 2 * 10) / max 1 (bbMaxX 14 [⟨some 0, some 0⟩] - bbMinX 14 [⟨some 0, some 0⟩]))
        ((500 - 2 * 10) / max 1 (bbMaxY 14 [⟨some 0, some 0⟩] - bbMinY 14 [⟨some 0, some 0⟩]))) ∧
      applyX t ((bbMinX 14 [⟨some 0, some 0⟩] + bbMaxX 14 [⟨some 0, some 0⟩]) / 2) = 800 / 2 ∧
      applyY t ((bbMinY 14 [⟨some 0, some 0⟩] + bbMaxY 14 [⟨some 0, some 0⟩]) / 2) = 500 / 2 ∧
      ∀ n ∈ ([⟨some 0, some 0⟩] : List VNode),
        (10 ≤ applyX t (posX n) ∧ applyX t (posX n) ≤ 800 - 10) ∧
        (10 ≤ applyY t (posY n) ∧ applyY t (posY n) ≤ 500 - 10)) :=
  ⟨⟨by simp, by norm_num, by norm_num⟩,
    zoomToFit_fits [⟨some 0, some 0⟩] 800 500 (by simp) (by norm_num) (by norm_num)⟩

/-- C7 counterexample: for the degenerate 0×0 viewport (smaller than twice
the margins, which the claim does not exclude) the fit scale is negative and
the single node's projected position, the viewport centre `0`, does not lie
within the viewport bounds inset by the margin. -/
theorem zoomToFit_small_viewport_violates_margin :
    zoomToFit [⟨some 0, some 0⟩] 0 0 14 10 10 =
      some { k := -(5 / 7), tx := 0, ty := 0 } ∧
    ¬ (10 ≤ applyX { k := -(5 / 7), tx := 0, ty := 0 } (posX ⟨some 0, some 0⟩) ∧
       applyX { k := -(5 / 7), tx := 0, ty := 0 } (posX ⟨some 0, some 0⟩) ≤ 0 - 10) := by
  constructor
  · simp only [zoomToFit, bbMinX, bbMaxX, bbMinY, bbMaxY, posX, posY]
    norm_num
  · intro hcon
    have := hcon.1
    simp only [applyX, posX, Option.getD_some] at this
    norm_num at this

/-- Helper: once the best squared radius is `0`, the linear scan of
`simulation.find` never replaces the best node, because no squared distance
is negative. -/
theorem findStep_foldl_zero (px py : ℚ) (c : Option SimNode) :
    ∀ l : List SimNode, l.foldl (findStep px py) (c, 0) = (c, 0) := by
  intro l
  induction l with
  | nil => rfl
  | cons m ms ih =>
    have hstep : findStep px py (c, 0) m = (c, 0) := by
      simp only [findStep]
      rw [if_neg]
      exact not_lt.2 (add_nonneg (mul_self_nonneg _) (mul_self_nonneg _))
    rw [List.foldl_cons, hstep, ih]

/-- Helper: scanning nodes none of which (other than `n` itself) sits at
`n`'s exact position keeps the state either locked on `n` with radius `0`
or with a strictly positive best radius. -/
theorem findFold_inv (n : SimNode) :
    ∀ l : List SimNode, (∀ m ∈ l, (m.x = n.x ∧ m.y = n.y) → m = n) →
      ∀ st : Option SimNode × ℚ, (st = (some n, 0) ∨ 0 < st.2) →
      (l.foldl (findStep n.x n.y) st = (some n, 0) ∨
        0 < (l.foldl (findStep n.x n.y) st).2) := by
  intro l
  induction l with
  | nil =>
    intro _ st hst
    simpa using hst
  | cons m ms ih =>
    intro hmem st hst
    rw [List.foldl_cons]
    refine ih (fun q hq => hmem q (List.mem_cons_of_mem _ hq)) _ ?_
    rcases hst with he | hpos
    · left
      rw [he]
      simp only [findStep]
      rw [if_neg]
      exact not_lt.2 (add_nonneg (mul_self_nonneg _) (mul_self_nonneg _))
    · simp only [findStep]
      by_cases hlt :
          (n.x - m.x) * (n.x - m.x) + (n.y - m.y) * (n.y - m.y) < st.2
      · rw [if_pos hlt]
        set d2 := (n.x - m.x) * (n.x - m.x) + (n.y - m.y) * (n.y - m.y) with hd2
        have hd2ge : 0 ≤ d2 := add_nonneg (mul_self_nonneg _) (mul_self_nonneg _)
        rcases eq_or_lt_of_le hd2ge with hzero | hposd
        · left
          have hx : m.x = n.x ∧ m.y = n.y := by
            have h0 : (n.x - m.x) * (n.x - m.x) = 0 ∧ (n.y - m.y) * (n.y - m.y) = 0 := by
              constructor <;>
                nlinarith [mul_self_nonneg (n.x - m.x), mul_self_nonneg (n.y - m.y)]
            constructor
            · have := mul_self_eq_zero.1 h0.1
              linarith
            · have := mul_self_eq_zero.1 h0.2
              linarith
          have hmn : m = n := hmem m (List.mem_cons_self m ms) hx
          rw [hmn, ← hzero]
        · right
          simpa using hposd
      · rw [if_neg hlt]
        exact Or.inr hpos

/-- C8 (amended): a pointer event placed exactly at a node's current
screen-projected coordinate, under any camera transform within the allowed
zoom range `[0.005, 4]`, resolves to that node through the
inverse-transform plus radius-based nearest-neighbour query — provided no
other node of the array occupies exactly the same world position; a
coincident node scanned earlier wins instead
(`coincident_nodes_resolve_to_first`). -/
theorem pointer_on_node_resolves (nodes : List SimNode) (t : Transform) (n : SimNode)
    (hn : n ∈ nodes) (hk1 : ZOOM_MIN ≤ t.k) (hk2 : t.k ≤ ZOOM_MAX)
    (huniq : ∀ m ∈ nodes, (m.x = n.x ∧ m.y = n.y) → m = n) :
    findSubjectPoint t nodes (applyX t n.x) (applyY t n.y) = some n := by
  have hkpos : 0 < t.k := lt_of_lt_of_le (by norm_num [ZOOM_MIN]) hk1
  have hkne : t.k ≠ 0 := ne_of_gt hkpos
  have hinvx : invertX t (applyX t n.x) = n.x := by
    field_simp [invertX, applyX]
  have hinvy : invertY t (applyY t n.y) = n.y := by
    field_simp [invertY, applyY]
  rw [findSubjectPoint, hinvx, hinvy, simulationFind]
  obtain ⟨l1, l2, rfl⟩ := List.append_of_mem hn
  have hrad : 0 < (30 / t.k) * (30 / t.k) := by
    have : 0 < 30 / t.k := by positivity
    positivity
  have h1 := findFold_inv n l1
    (fun q hq => huniq q (List.mem_append.2 (Or.inl hq)))
    ((none : Option SimNode), (30 / t.k) * (30 / t.k)) (Or.inr hrad)
  rw [List.foldl_append, List.foldl_cons]
  have hstep :
      findStep n.x n.y (l1.foldl (findStep n.x n.y)
        ((none : Option SimNode), (30 / t.k) * (30 / t.k))) n = (some n, 0) := by
    have hd2 : (n.x - n.x) * (n.x - n.x) + (n.y - n.y) * (n.y - n.y) = 0 := by ring
    rcases h1 with he | hpos
    · rw [he]
      simp only [findStep, hd2]
      rw [if_neg (lt_irrefl 0)]
    · simp only [findStep, hd2]
      rw [if_pos hpos]
  rw [hstep, findStep_foldl_zero]

/-- Witness for `pointer_on_node_resolves`: a two-node array with distinct
positions, the identity transform, and the pointer on the second node. -/
theorem pointer_on_node_resolves_witness :
    ((⟨1, 3, 4⟩ : SimNode) ∈ ([⟨0, 0, 0⟩, ⟨1, 3, 4⟩] : List SimNode) ∧
      ZOOM_MIN ≤ (1 : ℚ) ∧ (1 : ℚ) ≤ ZOOM_MAX ∧
      (∀ m ∈ ([⟨0, 0, 0⟩, ⟨1, 3, 4⟩] : List SimNode),
        (m.x = (3 : ℚ) ∧ m.y = (4 : ℚ)) → m = (⟨1, 3, 4⟩ : SimNode))) ∧
    findSubjectPoint { k := 1, tx := 0, ty := 0 } [⟨0, 0, 0⟩, ⟨1, 3, 4⟩]
        (applyX { k := 1, tx := 0, ty := 0 } 3) (applyY { k := 1, tx := 0, ty := 0 } 4) =
      some ⟨1, 3, 4⟩ :=
  ⟨⟨by simp, by norm_num [ZOOM_MIN], by norm_num [ZOOM_MAX],
      by
        intro m hm hxy
        rcases List.mem_cons.1 hm with rfl | hm2
        · exact absurd hxy.1 (by norm_num)
        · simpa using hm2⟩,
    pointer_on_node_resolves [⟨0, 0, 0⟩, ⟨1, 3, 4⟩] { k := 1, tx := 0, ty := 0 }
      ⟨1, 3, 4⟩ (by simp) (by norm_num [ZOOM_MIN]) (by norm_num [ZOOM_MAX])
      (by
        intro m hm hxy
        rcases List.mem_cons.1 hm with rfl | hm2
        · exact absurd hxy.1 (by norm_num)
        · simpa using hm2)⟩

/-- C8 counterexample: two nodes at the same world position, the identity
transform (scale 1, inside the allowed zoom range): the pointer placed
exactly at the second node's screen-projected coordinate resolves to the
first node of the array, not to the second — the linear scan keeps the
first node of minimal distance. -/
theorem coincident_nodes_resolve_to_first :
    (ZOOM_MIN ≤ (1 : ℚ) ∧ (1 : ℚ) ≤ ZOOM_MAX) ∧
    findSubjectPoint { k := 1, tx := 0, ty := 0 }
        [⟨0, 0, 0⟩, ⟨1, 0, 0⟩]
        (applyX { k := 1, tx := 0, ty := 0 } 0)
        (applyY { k := 1, tx := 0, ty := 0 } 0) = some ⟨0, 0, 0⟩ ∧
    (⟨0, 0, 0⟩ : SimNode) ≠ (⟨1, 0, 0⟩ : SimNode) := by
  refine ⟨⟨by norm_num [ZOOM_MIN], by norm_num [ZOOM_MAX]⟩, ?_, by simp [SimNode.mk.injEq]⟩
  norm_num [findSubjectPoint, simulationFind, findStep, invertX, invertY, applyX, applyY]

/-- C4: on the failing input — a one-node path whose id has no metadata
entry — the graph build throws (modelled by `none`) instead of creating the
node with a placeholder title as the claim requires: `pageInfo[pageId]` is
`undefined` and the unguarded `.title` access raises a `TypeError`. -/
theorem buildGraphData_missing_metadata_throws :
    buildGraphData [[1]] (fun _ => none) = none := by
  decide

end ForceGraph
